import Mathlib

/-!
Verification of the interactive-table formatting and serialization pipeline
(`google/colab/_interactive_table_helper.py` and `google/colab/_interactive_table.py`).

The embedding models plain Python 2 values (`None`, `bool`, `int`/`long`, `str`,
non-decodable `str`, `list`) as the inductive `PyVal`.  Strings are lists of
characters; Python byte strings whose `json.dumps` raises `UnicodeDecodeError`
are a separate constructor `badstr`.  All sizes use `Nat`.
-/

/-- Python values in the domain of the table serializer. -/
inductive PyVal : Type where
  | none : PyVal
  | bool : Bool → PyVal
  | int : Int → PyVal
  | str : List Char → PyVal
  | badstr : List Char → PyVal
  | list : List PyVal → PyVal

/-- Decimal digit characters, used by the decimal renderings below. -/
def digitCharList : List Char := ['0', '1', '2', '3', '4', '5', '6', '7', '8', '9']

/-- The character for a single decimal digit (argument taken mod 10 by callers). -/
def digitChar : Nat → Char
  | 0 => '0' | 1 => '1' | 2 => '2' | 3 => '3' | 4 => '4'
  | 5 => '5' | 6 => '6' | 7 => '7' | 8 => '8' | _ => '9'

/-- The character for a single hexadecimal digit (argument taken mod 16). -/
def hexDigit (n : Nat) : Char :=
  "0123456789abcdef".data.getD (n % 16) '0'

/-- Decimal digits of a natural number, fuel-indexed so that it is structural
(the fuel `n` always suffices for the digits of `n`). -/
def natDigitsAux : Nat → Nat → List Char
  | 0, _ => []
  | fuel + 1, n =>
    if n = 0 then [] else natDigitsAux fuel (n / 10) ++ [digitChar (n % 10)]

/-- Decimal rendering of a natural number, as produced by Python `'%d' %` / `json.dumps`. -/
def natDigits (n : Nat) : List Char :=
  if n = 0 then ['0'] else natDigitsAux n n

/-- Decimal rendering of a Python integer. -/
def intChars (n : Int) : List Char :=
  if n < 0 then '-' :: natDigits n.natAbs else natDigits n.natAbs

/-- The `\uXXXX` escape of a character, as emitted by `json.dumps` with
`ensure_ascii` (the default). -/
def uEscape (c : Char) : List Char :=
  ['\\', 'u', hexDigit (c.toNat / 4096), hexDigit (c.toNat / 256),
   hexDigit (c.toNat / 16), hexDigit c.toNat]

/-- Per-character JSON string escaping of Python 2 `json.dumps` with
`ensure_ascii=True`: `"` and `\` and the named control characters get
two-character escapes, any character outside the printable ASCII range
0x20..0x7e gets a `\uXXXX` escape, everything else passes through. -/
def escChar (c : Char) : List Char :=
  if c.toNat = 34 then ['\\', '"']
  else if c.toNat = 92 then ['\\', '\\']
  else if c.toNat = 10 then ['\\', 'n']
  else if c.toNat = 13 then ['\\', 'r']
  else if c.toNat = 9 then ['\\', 't']
  else if c.toNat = 8 then ['\\', 'b']
  else if c.toNat = 12 then ['\\', 'f']
  else if c.toNat < 32 ∨ 126 < c.toNat then uEscape c
  else [c]

/-- JSON escaping of a whole character list. -/
def jsonEscape : List Char → List Char
  | [] => []
  | c :: rest => escChar c ++ jsonEscape rest

/-- Python `json.dumps` of a string: the escaped body wrapped in quotes. -/
def jsonDumpsStr (s : List Char) : List Char :=
  '"' :: jsonEscape s ++ ['"']

/-- Python `json.dumps` of a list of strings (separator `", "`). -/
def jsonDumpsStrList (ss : List (List Char)) : List Char :=
  '[' :: List.intercalate (", ".data) (ss.map jsonDumpsStr) ++ [']']

/-- Model of `str.replace('</', '<\\/')`: left-to-right, non-overlapping. -/
def replaceLS : List Char → List Char
  | [] => []
  | [c] => [c]
  | a :: b :: rest =>
    if a = '<' ∧ b = '/' then '<' :: '\\' :: '/' :: replaceLS rest
    else a :: replaceLS (b :: rest)

/-- Whether a character list contains the two-character substring `"</"`. -/
def hasLS : List Char → Bool
  | [] => false
  | [_] => false
  | a :: b :: rest => (decide (a = '<') && decide (b = '/')) || hasLS (b :: rest)

/-- Whether a character list starts with `'/'`. -/
def startsSlash (s : List Char) : Bool :=
  decide (s.head? = some '/')

/-- Whether a character list ends with `'<'`. -/
def endsLt (s : List Char) : Bool :=
  decide (s.getLast? = some '<')

-- ### The value normalizer `ToJs`

/-- The big-integer step of `ToJs`:
`if isinstance(x, (int, long)) and abs(x) > 2**52: x = '%d' % x`. -/
def bigintAdjust (x : PyVal) : PyVal :=
  match x with
  | PyVal.int n => if 2 ^ 52 < n.natAbs then PyVal.str (intChars n) else PyVal.int n
  | _ => x

/-- Test `isinstance(x, basestring)` for modelled values (`str` and non-decodable `str`). -/
def isBasestring (x : PyVal) : Bool :=
  match x with
  | PyVal.str _ => true
  | PyVal.badstr _ => true
  | _ => false

mutual
/-- Python `json.dumps` on a modelled value; `Option.none` models the
`UnicodeDecodeError` raised on non-decodable byte strings (directly or
inside a list). -/
def dumpsE : PyVal → Option (List Char)
  | PyVal.none => Option.some ("null".data)
  | PyVal.bool b => Option.some ((if b then "true" else "false").data)
  | PyVal.int n => Option.some (intChars n)
  | PyVal.str s => Option.some (jsonDumpsStr s)
  | PyVal.badstr _ => Option.none
  | PyVal.list xs =>
    match dumpsElems xs with
    | Option.some es => Option.some ('[' :: List.intercalate (", ".data) es ++ [']'])
    | Option.none => Option.none

/-- Python `json.dumps` of the elements of a list, failing if any element fails. -/
def dumpsElems : List PyVal → Option (List (List Char))
  | [] => Option.some []
  | x :: xs =>
    match dumpsE x, dumpsElems xs with
    | Option.some r, Option.some rs => Option.some (r :: rs)
    | _, _ => Option.none
end

mutual
/-- The body of `ToJs` after the optional formatter has been applied:
big-integer conversion, `json.dumps` with the `UnicodeDecodeError` fallback,
the `'</'` replacement, and the optional double JSON encoding. -/
def ToJsCore (nu : List Char → List Char) (x : PyVal) (as_string : Bool) : List Char :=
  let y := bigintAdjust x
  let dbl := as_string && !(isBasestring y)
  let result :=
    match dumpsE y with
    | Option.some r => r
    | Option.none => toJsFallback nu x
  if dbl then jsonDumpsStr (replaceLS result) else replaceLS result
termination_by (sizeOf x, 2)

/-- The `except UnicodeDecodeError` handler of `ToJs`: the nonunicode
formatter for text values, element-wise recursive normalization for others. -/
def toJsFallback (nu : List Char → List Char) : PyVal → List Char
  | PyVal.str s => jsonDumpsStr (nu s)
  | PyVal.badstr s => jsonDumpsStr (nu s)
  | PyVal.list xs => jsonDumpsStrList (toJsElems nu xs)
  | _ => []
termination_by x => (sizeOf x, 1)

/-- The list comprehension `[ToJs(el, default_nonunicode_formatter) for el in x]`. -/
def toJsElems (nu : List Char → List Char) (xs : List PyVal) : List (List Char) :=
  match xs with
  | [] => []
  | e :: es => ToJsCore nu e false :: toJsElems nu es
termination_by (sizeOf xs, 0)
end

/-- Model of `ToJs(x, default_nonunicode_formatter, formatter, as_string)`:
apply the formatter if given, then run the rest of the pipeline. -/
def ToJs (x : PyVal) (nu : List Char → List Char)
    (formatter : Option (PyVal → PyVal)) (as_string : Bool) : List Char :=
  ToJsCore nu (match formatter with | Option.some f => f x | Option.none => x) as_string

-- ### Warnings printed by the helper functions

/-- The warnings the helper module prints (modelled as values instead of stdout). -/
inductive Warning : Type where
  | dataExceeds (maxSize discarded : Nat) : Warning
  | tooManyColumns (n maxColumns : Nat) : Warning
  | tooManyRows (n maxRows : Nat) : Warning
  | fmtIdxOutOfRange (idx nColumns : Nat) : Warning
  | fmtNameMissing (name : String) : Warning
  | fmtCollision (idx : Nat) (name : String) : Warning
deriving DecidableEq

-- ### `ToJsMatrix` (row serialization with the cumulative size cap)

/-- The per-row serialized strings of `ToJsMatrix`:
`','.join(ToJs(el, default_nonunicode_formatter, custom_formatters.get(i, None)))`. -/
def serializedRows (matrix : List (List PyVal)) (nu : List Char → List Char)
    (cf : Nat → Option (PyVal → PyVal)) : List (List Char) :=
  matrix.map (fun row =>
    List.intercalate [','] (row.enum.map (fun p => ToJs p.2 nu (cf p.1) false)))

/-- The number of rows kept by the cumulative-size loop of `ToJsMatrix`,
starting from a running total. -/
def keptCountAux (maxDataSize : Nat) : Nat → List (List Char) → Nat
  | _, [] => 0
  | total, v :: rest =>
    let t := total + (v.length + 10)
    if maxDataSize < t then 0 else 1 + keptCountAux maxDataSize t rest

/-- The number of rows kept by the cumulative-size loop of `ToJsMatrix`. -/
def keptCount (values : List (List Char)) (maxDataSize : Nat) : Nat :=
  keptCountAux maxDataSize 0 values

/-- Rendering `'[[%s]]' % ('],\n ['.join(values))`. -/
def renderMatrix (values : List (List Char)) : List Char :=
  "[[".data ++ List.intercalate ("],\n [".data) values ++ "]]".data

/-- Model of `ToJsMatrix(matrix, default_nonunicode_formatter, custom_formatters, max_data_size)`,
returning the rendered matrix together with the printed warnings. -/
def ToJsMatrix (matrix : List (List PyVal)) (nu : List Char → List Char)
    (cf : Nat → Option (PyVal → PyVal)) (maxDataSize : Nat) :
    List Char × List Warning :=
  let values := serializedRows matrix nu cf
  let n := keptCount values maxDataSize
  let discarded := values.length - n
  (renderMatrix (values.take n),
   if discarded = 0 then [] else [Warning.dataExceeds maxDataSize discarded])


-- ### TrimColumns and TrimData

/-- Model of `TrimColumns(columns, max_columns)`: the returned columns and the
printed warnings. -/
def TrimColumns {A : Type} (columns : List A) (maxColumns : Nat) :
    List A × List Warning :=
  if columns.length ≤ maxColumns then (columns, [])
  else (columns.take maxColumns,
    [Warning.tooManyColumns columns.length maxColumns])

/-- The column-trimming phase of `TrimData`: the state of the caller's list
after the in-place `data[i] = data[i][:max_columns]` loop (which fires when
the first row is longer than `max_columns`). -/
def trimDataMutated {A : Type} (data : List (List A)) (maxColumns : Option Nat) :
    List (List A) :=
  match maxColumns with
  | Option.some m =>
    if data.length ≠ 0 ∧ m < (data.headD []).length
    then data.map (fun row => row.take m) else data
  | Option.none => data

/-- Model of `TrimData(data, max_rows, max_columns)` with the in-place mutation
made explicit: the first component is the list object the caller still
references after the call, the second is the returned value, the third the
printed warnings. -/
def TrimData {A : Type} (data : List (List A)) (maxRows : Nat)
    (maxColumns : Option Nat) :
    List (List A) × List (List A) × List Warning :=
  let mutated := trimDataMutated data maxColumns
  if mutated.length ≤ maxRows then (mutated, mutated, [])
  else (mutated, mutated.take maxRows,
    [Warning.tooManyRows mutated.length maxRows])

-- ### ProcessCustomFormatters

/-- A custom-formatter key: a column index or a column name. -/
abbrev FmtKey : Type := Nat ⊕ String

/-- Dictionary lookup on the formatter spec (first match). -/
def lookupKey {F : Type} (fmts : List (FmtKey × F)) (k : FmtKey) : Option F :=
  (fmts.find? (fun p => decide (p.1 = k))).map Prod.snd

/-- Lookup on the index-keyed output dict (first match). -/
def lookupFmt {F : Type} (out : List (Nat × F)) (i : Nat) : Option F :=
  (out.find? (fun p => decide (p.1 = i))).map Prod.snd

/-- Warnings of the validation loop of `ProcessCustomFormatters`: out-of-range
integer keys and names matching no column. -/
def pcfKeyWarnings {F : Type} (fmts : List (FmtKey × F)) (columns : List String) :
    List Warning :=
  fmts.filterMap (fun p =>
    match p.1 with
    | Sum.inl i =>
      if columns.length ≤ i then Option.some (Warning.fmtIdxOutOfRange i columns.length)
      else Option.none
    | Sum.inr l =>
      if l ∈ columns then Option.none else Option.some (Warning.fmtNameMissing l))

/-- The dict comprehension keeping the index-keyed formatters. -/
def pcfIntEntries {F : Type} (fmts : List (FmtKey × F)) : List (Nat × F) :=
  fmts.filterMap (fun p =>
    match p.1 with
    | Sum.inl i => Option.some (i, p.2)
    | Sum.inr _ => Option.none)

/-- The `for i, name in enumerate(columns)` loop of `ProcessCustomFormatters`:
resolve name-keyed formatters to indices, index-keyed entries taking
precedence with a collision warning. -/
def pcfLoop {F : Type} (fmts : List (FmtKey × F)) :
    List (Nat × String) → List (Nat × F) → List Warning → List (Nat × F) × List Warning
  | [], out, ws => (out, ws)
  | (i, name) :: rest, out, ws =>
    match lookupKey fmts (Sum.inr name) with
    | Option.none => pcfLoop fmts rest out ws
    | Option.some f =>
      if (out.find? (fun p => decide (p.1 = i))).isSome
      then pcfLoop fmts rest out (ws ++ [Warning.fmtCollision i name])
      else pcfLoop fmts rest (out ++ [(i, f)]) ws

/-- Model of `ProcessCustomFormatters(formatters, columns)`: the output dict
keyed only by index, plus the printed warnings (validation warnings first,
then collision warnings, as printed). -/
def ProcessCustomFormatters {F : Type} (fmts : List (FmtKey × F))
    (columns : List String) : List (Nat × F) × List Warning :=
  if fmts.isEmpty then ([], [])
  else
    ((pcfLoop fmts columns.enum (pcfIntEntries fmts) []).1,
     pcfKeyWarnings fmts columns ++ (pcfLoop fmts columns.enum (pcfIntEntries fmts) []).2)

-- ### Column type inference

/-- The JS column types returned by `DetermineColumnType`. -/
inductive ColType : Type where
  | number : ColType
  | string : ColType
deriving DecidableEq

/-- Python runtime types of modelled values. -/
inductive PyType : Type where
  | noneT : PyType
  | boolT : PyType
  | intT : PyType
  | strT : PyType
  | listT : PyType
deriving DecidableEq

/-- Result of `type(cell)` for modelled values. -/
def pyTypeOf : PyVal → PyType
  | PyVal.none => PyType.noneT
  | PyVal.bool _ => PyType.boolT
  | PyVal.int _ => PyType.intT
  | PyVal.str _ => PyType.strT
  | PyVal.badstr _ => PyType.strT
  | PyVal.list _ => PyType.listT

/-- Test `cell is None or issubclass(t, numbers.Number) or issubclass(t, basestring)`
of `GetColumnType`. -/
def isKnownType (cell : PyVal) : Bool :=
  match cell with
  | PyVal.none => true
  | PyVal.bool _ => true
  | PyVal.int _ => true
  | PyVal.str _ => true
  | PyVal.badstr _ => true
  | PyVal.list _ => false

/-- The type recorded for a cell by `GetColumnType` (unknown kinds become `str`). -/
def cellType (cell : PyVal) : PyType :=
  if isKnownType cell then pyTypeOf cell else PyType.strT

/-- Test `issubclass(t, (numbers.Number, types.NoneType))`; in Python 2 `bool`
is a subclass of `int` and hence of `numbers.Number`. -/
def isNumberOrNoneSub (t : PyType) : Bool :=
  match t with
  | PyType.noneT => true
  | PyType.boolT => true
  | PyType.intT => true
  | _ => false

/-- Test `issubclass(t, bool)`. -/
def isBoolSub (t : PyType) : Bool :=
  match t with
  | PyType.boolT => true
  | _ => false

/-- Model of `DetermineColumnType(data_types)`. -/
def DetermineColumnType (ts : List PyType) : ColType :=
  if ts.all (fun t => isNumberOrNoneSub t && !(isBoolSub t)) then ColType.number
  else ColType.string

/-- Model of `GetColumnType(data, column_index)`; the Python code collects the
set of cell types and tests all of them, which is equivalent to testing the
list of cell types collected row by row. -/
def GetColumnType (data : List (List PyVal)) (i : Nat) : ColType :=
  DetermineColumnType (data.map (fun row => cellType (row.getD i PyVal.none)))

/-- Whether a cell is null or a non-boolean numeric value. -/
def isNullOrNonBoolNum (cell : PyVal) : Bool :=
  match cell with
  | PyVal.none => true
  | PyVal.int _ => true
  | _ => false

-- ### FormatData

/-- The raw/formatted cell template of `FormatData`, with the exact whitespace
of the source string literal. -/
def pairTemplate (raw fmtd : List Char) : List Char :=
  "\x7b\n            \x27v\x27: ".data ++ raw ++
    ",\n            \x27f\x27: ".data ++ fmtd ++ ",\n        \x7d".data

/-- The per-cell encoding of `FormatData`: the single normalized value, or the
raw/formatted pair for numeric columns with a custom formatter. -/
def encodeCell (dF : List Char → List Char) (cF : Option (PyVal → PyVal))
    (ct : ColType) (cell : PyVal) : List Char :=
  let fv := match cF with | Option.some f => f cell | Option.none => cell
  if ct ≠ ColType.number ∨ cF.isSome = false then ToJs fv dF Option.none false
  else pairTemplate (ToJs cell dF Option.none false) (ToJs fv dF Option.none true)

/-- The column types computed by `FormatData`. -/
def columnTypesOf (data : List (List PyVal)) : List ColType :=
  (List.range (data.headD []).length).map (fun i => GetColumnType data i)

/-- The serialized rows of `FormatData` (cells joined with a comma-newline). -/
def formattedRows (data : List (List PyVal)) (dF : List Char → List Char)
    (cF : Nat → Option (PyVal → PyVal)) : List (List Char) :=
  data.map (fun row =>
    List.intercalate (",\n".data)
      (row.enum.map (fun p =>
        encodeCell dF (cF p.1) ((columnTypesOf data).getD p.1 ColType.string) p.2)))

/-- Model of `FormatData(data, default_formatter, custom_formatters)`. -/
def FormatData (data : List (List PyVal)) (dF : List Char → List Char)
    (cF : Nat → Option (PyVal → PyVal)) : List ColType × List Char :=
  (columnTypesOf data, renderMatrix (formattedRows data dF cF))

/-- Partiality of `FormatData`: `len(data[0])` raises `IndexError` when the
data list is empty, so the serializer fails there. -/
def FormatDataE (data : List (List PyVal)) (dF : List Char → List Char)
    (cF : Nat → Option (PyVal → PyVal)) : Option (List ColType × List Char) :=
  if data.isEmpty then Option.none else Option.some (FormatData data dF cF)

-- ### The widget facade

/-- Model of `cgi.escape`: replace ampersand and angle brackets by entities. -/
def cgiEscape : List Char → List Char
  | [] => []
  | c :: rest =>
    if c = '&' then "&amp;".data ++ cgiEscape rest
    else if c = '<' then "&lt;".data ++ cgiEscape rest
    else if c = '>' then "&gt;".data ++ cgiEscape rest
    else c :: cgiEscape rest

/-- Model of `FORCE_TO_LATIN1`, the widget module default nonunicode formatter. -/
def defaultNonunicodeFormatter (s : List Char) : List Char :=
  "nonunicode data: ".data ++ cgiEscape (s.take 100) ++ "...".data

/-- The column type as written into the payload. -/
def colTypeChars (t : ColType) : List Char :=
  match t with
  | ColType.number => "number".data
  | ColType.string => "string".data

/-- Python `json.dumps` of the `[[type, label], ...]` columns-and-types list. -/
def jsonColumnsAndTypes (pairs : List (ColType × List Char)) : List Char :=
  '[' :: List.intercalate (", ".data)
    (pairs.map (fun p =>
      '[' :: jsonDumpsStr (colTypeChars p.1) ++ ", ".data ++ jsonDumpsStr p.2 ++ [']'])) ++ [']']

/-- Python `str` of a list of strings (single-quoted items), used for the
widths list. -/
def widthsListChars (ws : List (List Char)) : List Char :=
  '[' :: List.intercalate (", ".data)
    (ws.map (fun w => '\x27' :: w ++ ['\x27'])) ++ [']']

/-- The `column_widths` payload: the text `null` if no widths were provided,
else the per-column width or `'null'` looked up for each column index. -/
def widthsChars (cw : List (Nat × List Char)) (nColumns : Nat) : List Char :=
  if cw.isEmpty then "null".data
  else widthsListChars ((List.range nColumns).map
    (fun i => (lookupFmt cw i).getD ("null".data)))

/-- The widget state built by `GVizTable.__init__`. -/
structure GVizTable : Type where
  id : List Char
  columns : List String
  data : List (List PyVal)
  columnWidths : List (Nat × List Char)
  customFormatters : Nat → Option (PyVal → PyVal)
  headerFormatters : Nat → String → List Char
  numRowsPerPage : Nat
  published : Bool

/-- The script template of `GVizTable._gen_js` with its substitutions applied. -/
def genJsTemplate (idStr dataStr columnsStr widthsStr rowsPerPage : List Char) : List Char :=
  "\n      (() => \x7b\n        const data = ".data ++ dataStr ++
  ";\n        const kernelTag = \"".data ++ idStr ++
  "\";\n        gvizInteractiveTable.create(\x7b\n          data,\n          saveCallback: () => \x7b\x7d,\n          elementId: \"".data ++ idStr ++
  "\",\n          columns: ".data ++ columnsStr ++
  ",\n          columnWidths: ".data ++ widthsStr ++
  ",\n          rowsPerPage: ".data ++ rowsPerPage ++
  ",\n        \x7d);\n      \x7d)();\n    //# sourceURL=table_".data ++ idStr ++
  "\n    ".data

/-- Model of `GVizTable._gen_js(columns, data)`; `Option.none` models the
`IndexError` that `FormatData` raises on empty data. -/
def genJs (t : GVizTable) : Option (List Char) :=
  (FormatDataE t.data defaultNonunicodeFormatter t.customFormatters).map
    (fun fd =>
      genJsTemplate t.id fd.2
        (jsonColumnsAndTypes ((fd.1.zip t.columns).enum.map
          (fun p => (p.2.1, t.headerFormatters p.1 p.2.2))))
        (widthsChars t.columnWidths t.columns.length)
        (natDigits t.numRowsPerPage))

/-- The HTML shell of `GVizTable._get_html` for nonempty data. -/
def htmlShell (idStr ini : List Char) : List Char :=
  "\n      <link rel=\"stylesheet\" href=\"/nbextensions/google.colab/gviz_interactive_table.css\">\n      <script src=\"/nbextensions/google.colab/gviz_loader.js\"></script>\n      <script src=\"/nbextensions/google.colab/gviz_interactive_table_main.js\"></script>\n      <div id=\"".data ++ idStr ++
  "\"></div>\n      <script>".data ++ ini ++ "</script>".data

/-- Model of `GVizTable._get_html`: the empty-table placeholder, or the
populated shell. -/
def getHtml (t : GVizTable) : Option (List Char) :=
  if t.data.length = 0 then Option.some ("The table is empty".data)
  else (genJs t).map (fun ini => htmlShell t.id ini)

-- ### Constants used in concrete instances

/-- Identity nonunicode formatter, used in concrete instances. -/
def idNu : List Char → List Char := fun s => s

/-- Empty custom-formatter map, used in concrete instances. -/
def cfEmpty : Nat → Option (PyVal → PyVal) := fun _ => Option.none

/-- A concrete widget with an empty row set, used in concrete instances. -/
def emptyTable : GVizTable :=
  ⟨"IT_0".data, [], [], [], cfEmpty, fun _ _ => [], 10, false⟩

/-- A concrete formatter spec with a positional and a label key that resolve
to the same column, used in concrete instances. -/
def fmtsW : List (FmtKey × Nat) := [(Sum.inl 0, 1), (Sum.inr "a", 2)]

/-- The concrete column list for `fmtsW`. -/
def colsW : List String := ["a"]


-- ### Basic facts about the escape machinery

theorem hasLS_cons (c : Char) (s : List Char) :
    hasLS (c :: s) = ((decide (c = '<') && startsSlash s) || hasLS s) := by
  cases s with
  | nil => simp [hasLS, startsSlash]
  | cons b rest => simp [hasLS, startsSlash]

theorem endsLt_cons_cons (a b : Char) (s : List Char) :
    endsLt (a :: b :: s) = endsLt (b :: s) := by
  simp [endsLt, List.getLast?]

theorem hasLS_append (s t : List Char) :
    hasLS (s ++ t) = (hasLS s || hasLS t || (endsLt s && startsSlash t)) := by
  induction s with
  | nil => simp [hasLS, endsLt, List.getLast?_nil]
  | cons a s ih =>
    cases s with
    | nil =>
      rw [List.singleton_append, hasLS_cons]
      have h1 : hasLS [a] = false := rfl
      have h2 : endsLt [a] = decide (a = '<') := by
        simp [endsLt, List.getLast?]
      rw [h1, h2]
      cases decide (a = '<') <;> cases hasLS t <;> cases startsSlash t <;> rfl
    | cons b s2 =>
      have e2 : hasLS (a :: b :: (s2 ++ t)) =
          ((decide (a = '<') && decide (b = '/')) || hasLS (b :: (s2 ++ t))) := rfl
      have e3 : hasLS (a :: b :: s2) =
          ((decide (a = '<') && decide (b = '/')) || hasLS (b :: s2)) := rfl
      rw [show (a :: b :: s2) ++ t = a :: b :: (s2 ++ t) from rfl, e2,
        show b :: (s2 ++ t) = (b :: s2) ++ t from rfl, ih, e3, endsLt_cons_cons]
      cases (decide (a = '<') && decide (b = '/')) <;> cases hasLS (b :: s2) <;>
        cases hasLS t <;> cases (endsLt (b :: s2) && startsSlash t) <;> rfl

theorem replaceLS_head? (s : List Char) : (replaceLS s).head? = s.head? := by
  induction s using replaceLS.induct with
  | case1 => rfl
  | case2 c => rfl
  | case3 a b rest h ih => simp [replaceLS, h]
  | case4 a b rest h ih => simp [replaceLS, h]

theorem hasLS_replaceLS (s : List Char) : hasLS (replaceLS s) = false := by
  induction s using replaceLS.induct with
  | case1 => rfl
  | case2 c => rfl
  | case3 a b rest h ih =>
    obtain ⟨ha, hb⟩ := h
    subst ha; subst hb
    have hr : replaceLS ('<' :: '/' :: rest) = '<' :: '\\' :: '/' :: replaceLS rest := by
      simp [replaceLS]
    rw [hr, hasLS_cons, hasLS_cons, hasLS_cons, ih]
    simp [startsSlash]
  | case4 a b rest h ih =>
    have hr : replaceLS (a :: b :: rest) = a :: replaceLS (b :: rest) := by
      simp only [replaceLS, if_neg h]
    rw [hr, hasLS_cons, ih]
    have hb : (replaceLS (b :: rest)).head? = some b := by
      rw [replaceLS_head?]; rfl
    have hstart : startsSlash (replaceLS (b :: rest)) = decide (b = '/') := by
      simp [startsSlash, hb]
    rw [hstart]
    by_cases ha : a = '<'
    · have hbne : ¬ b = '/' := fun hb2 => h ⟨ha, hb2⟩
      simp [ha, hbne]
    · simp [ha]

theorem replaceLS_eq_self (s : List Char) (h : ∀ c ∈ s, c ≠ '<') :
    replaceLS s = s := by
  induction s using replaceLS.induct with
  | case1 => rfl
  | case2 c => rfl
  | case3 a b rest hc ih =>
    exact absurd hc.1 (h a (by simp))
  | case4 a b rest hc ih =>
    simp only [replaceLS, hc, if_false]
    rw [ih (fun c hcmem => h c (List.mem_cons_of_mem a hcmem))]

theorem hasLS_of_no_lt (s : List Char) (h : ∀ a ∈ s, a ≠ '<') : hasLS s = false := by
  induction s with
  | nil => rfl
  | cons c rest ih =>
    rw [hasLS_cons, ih (fun a ha => h a (List.mem_cons_of_mem c ha))]
    have hc : decide (c = '<') = false := by
      simp [h c (List.mem_cons_self c rest)]
    rw [hc]
    rfl

theorem head?_append_left {α : Type} (l l2 : List α) (h : l ≠ []) :
    (l ++ l2).head? = l.head? := by
  cases l with
  | nil => exact absurd rfl h
  | cons a t => rfl

-- ### Facts about `escChar` and `jsonEscape`

theorem hexDigit_mem (n : Nat) : hexDigit n ∈ "0123456789abcdef".data := by
  unfold hexDigit
  have hlt : n % 16 < 16 := Nat.mod_lt _ (by norm_num)
  set m := n % 16 with hm
  interval_cases m <;> decide

theorem hex_ne_lt : ∀ c ∈ "0123456789abcdef".data, c ≠ '<' := by decide

theorem escChar_ne_nil (c : Char) : escChar c ≠ [] := by
  unfold escChar uEscape
  split_ifs <;> simp

theorem escChar_head_slash (c : Char) (h : (escChar c).head? = some '/') : c = '/' := by
  unfold escChar uEscape at h
  split_ifs at h <;> simp_all

theorem escChar_getLast_lt (c : Char) (h : (escChar c).getLast? = some '<') : c = '<' := by
  unfold escChar at h
  split_ifs at h with h1 h2 h3 h4 h5 h6 h7 h8
  · exact absurd h (by decide)
  · exact absurd h (by decide)
  · exact absurd h (by decide)
  · exact absurd h (by decide)
  · exact absurd h (by decide)
  · exact absurd h (by decide)
  · exact absurd h (by decide)
  · exfalso
    have hl : (uEscape c).getLast? = some (hexDigit c.toNat) := rfl
    rw [hl] at h
    exact hex_ne_lt _ (hexDigit_mem c.toNat) (Option.some.inj h)
  · simpa using h

theorem hasLS_escChar (c : Char) : hasLS (escChar c) = false := by
  unfold escChar
  split_ifs with h1 h2 h3 h4 h5 h6 h7 h8
  · decide
  · decide
  · decide
  · decide
  · decide
  · decide
  · decide
  · apply hasLS_of_no_lt
    intro a ha
    unfold uEscape at ha
    simp only [List.mem_cons, List.not_mem_nil, or_false] at ha
    rcases ha with h | h | h | h | h | h <;> subst h
    · decide
    · decide
    · exact hex_ne_lt _ (hexDigit_mem _)
    · exact hex_ne_lt _ (hexDigit_mem _)
    · exact hex_ne_lt _ (hexDigit_mem _)
    · exact hex_ne_lt _ (hexDigit_mem _)
  · rfl

theorem jsonEscape_head_slash (s : List Char) (h : startsSlash (jsonEscape s) = true) :
    startsSlash s = true := by
  cases s with
  | nil => exact absurd h (by decide)
  | cons c rest =>
    have he : jsonEscape (c :: rest) = escChar c ++ jsonEscape rest := rfl
    rw [he] at h
    unfold startsSlash at h
    rw [head?_append_left _ _ (escChar_ne_nil c)] at h
    have hc : c = '/' := escChar_head_slash c (of_decide_eq_true h)
    subst hc
    simp [startsSlash]

theorem jsonEscape_noLS (s : List Char) (h : hasLS s = false) :
    hasLS (jsonEscape s) = false := by
  induction s with
  | nil => rfl
  | cons c rest ih =>
    rw [hasLS_cons] at h
    have hrest : hasLS rest = false := by
      cases hx : hasLS rest
      · rfl
      · rw [hx] at h; simp at h
    have hpair : (decide (c = '<') && startsSlash rest) = false := by
      cases hx : (decide (c = '<') && startsSlash rest)
      · rfl
      · rw [hx] at h; simp at h
    show hasLS (escChar c ++ jsonEscape rest) = false
    rw [hasLS_append, hasLS_escChar, ih hrest]
    simp only [Bool.false_or]
    cases hE : endsLt (escChar c)
    · rfl
    · cases hS : startsSlash (jsonEscape rest)
      · rfl
      · exfalso
        have hc : c = '<' := escChar_getLast_lt c (of_decide_eq_true (by simpa [endsLt] using hE))
        have hr : startsSlash rest = true := jsonEscape_head_slash rest hS
        rw [hc, hr] at hpair
        simp at hpair

theorem hasLS_jsonDumpsStr (s : List Char) (h : hasLS s = false) :
    hasLS (jsonDumpsStr s) = false := by
  unfold jsonDumpsStr
  rw [List.cons_append, hasLS_cons, hasLS_append, jsonEscape_noLS s h]
  have h1 : startsSlash (jsonEscape s ++ ['"']) = false ∨ startsSlash (jsonEscape s ++ ['"']) = true := by
    cases startsSlash (jsonEscape s ++ ['"'])
    · exact Or.inl rfl
    · exact Or.inr rfl
  have h2 : decide ('"' = '<') = false := by decide
  have h3 : hasLS (['"'] : List Char) = false := rfl
  have h4 : startsSlash (['"'] : List Char) = false := by decide
  rw [h2, h3, h4]
  simp

-- ### Facts about decimal renderings

theorem digitChar_mem (k : Nat) : digitChar k ∈ digitCharList := by
  unfold digitChar
  split <;> decide

theorem digit_ne_lt : ∀ c ∈ digitCharList, c ≠ '<' := by decide

theorem natDigitsAux_mem (fuel : Nat) :
    ∀ n, ∀ c ∈ natDigitsAux fuel n, c ∈ digitCharList := by
  induction fuel with
  | zero => intro n c hc; simp [natDigitsAux] at hc
  | succ fuel ih =>
    intro n c hc
    unfold natDigitsAux at hc
    by_cases h : n = 0
    · rw [if_pos h] at hc; simp at hc
    · rw [if_neg h] at hc
      rcases List.mem_append.1 hc with h2 | h2
      · exact ih _ c h2
      · simp only [List.mem_cons, List.not_mem_nil, or_false] at h2
        subst h2
        exact digitChar_mem _

theorem natDigits_mem (n : Nat) : ∀ c ∈ natDigits n, c ∈ digitCharList := by
  unfold natDigits
  by_cases h : n = 0
  · rw [if_pos h]; decide
  · rw [if_neg h]; exact natDigitsAux_mem n n

theorem intChars_mem (n : Int) : ∀ c ∈ intChars n, c = '-' ∨ c ∈ digitCharList := by
  unfold intChars
  intro c hc
  split_ifs at hc with h
  · rcases List.mem_cons.1 hc with h2 | h2
    · exact Or.inl h2
    · exact Or.inr (natDigits_mem _ c h2)
  · exact Or.inr (natDigits_mem _ c hc)

theorem escChar_eq_self (c : Char) (h1 : 32 ≤ c.toNat) (h2 : c.toNat ≤ 126)
    (h3 : ¬ c.toNat = 34) (h4 : ¬ c.toNat = 92) : escChar c = [c] := by
  unfold escChar
  have g10 : ¬ c.toNat = 10 := by omega
  have g13 : ¬ c.toNat = 13 := by omega
  have g9 : ¬ c.toNat = 9 := by omega
  have g8 : ¬ c.toNat = 8 := by omega
  have g12 : ¬ c.toNat = 12 := by omega
  have gr : ¬ (c.toNat < 32 ∨ 126 < c.toNat) := by omega
  rw [if_neg h3, if_neg h4, if_neg g10, if_neg g13, if_neg g9, if_neg g8, if_neg g12, if_neg gr]

theorem escChar_digit (c : Char) (h : c ∈ digitCharList) : escChar c = [c] := by
  fin_cases h <;> decide

theorem jsonEscape_eq_self (s : List Char) (h : ∀ c ∈ s, escChar c = [c]) :
    jsonEscape s = s := by
  induction s with
  | nil => rfl
  | cons c rest ih =>
    show escChar c ++ jsonEscape rest = c :: rest
    rw [h c (List.mem_cons_self c rest), ih (fun a ha => h a (List.mem_cons_of_mem c ha))]
    rfl

theorem jsonEscape_intChars (n : Int) : jsonEscape (intChars n) = intChars n := by
  apply jsonEscape_eq_self
  intro c hc
  rcases intChars_mem n c hc with h | h
  · subst h; decide
  · exact escChar_digit c h

theorem intChars_ne_lt (n : Int) : ∀ c ∈ intChars n, c ≠ '<' := by
  intro c hc
  rcases intChars_mem n c hc with h | h
  · subst h; decide
  · exact digit_ne_lt c h

theorem replaceLS_intChars (n : Int) : replaceLS (intChars n) = intChars n :=
  replaceLS_eq_self _ (intChars_ne_lt n)

theorem replaceLS_dumps_intChars (n : Int) :
    replaceLS ('"' :: intChars n ++ ['"']) = '"' :: intChars n ++ ['"'] := by
  apply replaceLS_eq_self
  intro c hc
  rcases List.mem_append.1 hc with h | h
  · rcases List.mem_cons.1 h with h2 | h2
    · subst h2; decide
    · exact intChars_ne_lt n c h2
  · simp only [List.mem_cons, List.not_mem_nil, or_false] at h
    subst h; decide

theorem jsonDumpsStr_intChars (n : Int) :
    jsonDumpsStr (intChars n) = '"' :: intChars n ++ ['"'] := by
  unfold jsonDumpsStr
  rw [jsonEscape_intChars]


-- ### Evaluation facts about `ToJsCore`

theorem toJsCore_shape (nu : List Char → List Char) (x : PyVal) (b : Bool) :
    ∃ r : List Char,
      ToJsCore nu x b = replaceLS r ∨ ToJsCore nu x b = jsonDumpsStr (replaceLS r) := by
  rw [ToJsCore]
  cases hdbl : (b && !(isBasestring (bigintAdjust x)))
  · exact ⟨_, Or.inl (if_neg (by simp))⟩
  · exact ⟨_, Or.inr (if_pos rfl)⟩

theorem toJsCore_noLS (nu : List Char → List Char) (x : PyVal) (b : Bool) :
    hasLS (ToJsCore nu x b) = false := by
  obtain ⟨r, h | h⟩ := toJsCore_shape nu x b
  · rw [h]; exact hasLS_replaceLS r
  · rw [h]; exact hasLS_jsonDumpsStr _ (hasLS_replaceLS r)

theorem toJsElems_eq_map (nu : List Char → List Char) (xs : List PyVal) :
    toJsElems nu xs = xs.map (fun el => ToJsCore nu el false) := by
  induction xs with
  | nil => rw [toJsElems]; rfl
  | cons e es ih => rw [toJsElems, ih]; rfl

theorem bigintAdjust_int_large (n : Int) (h : 2 ^ 52 < n.natAbs) :
    bigintAdjust (PyVal.int n) = PyVal.str (intChars n) := by
  show (if 2 ^ 52 < n.natAbs then PyVal.str (intChars n) else PyVal.int n)
      = PyVal.str (intChars n)
  rw [if_pos h]

theorem bigintAdjust_int_small (n : Int) (h : ¬ 2 ^ 52 < n.natAbs) :
    bigintAdjust (PyVal.int n) = PyVal.int n := by
  show (if 2 ^ 52 < n.natAbs then PyVal.str (intChars n) else PyVal.int n)
      = PyVal.int n
  rw [if_neg h]

theorem dumpsE_str (s : List Char) :
    dumpsE (PyVal.str s) = Option.some (jsonDumpsStr s) := by
  rw [dumpsE]

theorem dumpsE_int (n : Int) : dumpsE (PyVal.int n) = Option.some (intChars n) := by
  rw [dumpsE]

theorem dumpsE_badstr (s : List Char) : dumpsE (PyVal.badstr s) = Option.none := by
  rw [dumpsE]

theorem toJsCore_int (nu : List Char → List Char) (n : Int) (b : Bool) :
    ToJsCore nu (PyVal.int n) b =
      if 2 ^ 52 < n.natAbs then '"' :: intChars n ++ ['"']
      else if b then '"' :: intChars n ++ ['"'] else intChars n := by
  by_cases h : 2 ^ 52 < n.natAbs
  · rw [if_pos h, ToJsCore, bigintAdjust_int_large n h, dumpsE_str]
    have hbase : isBasestring (PyVal.str (intChars n)) = true := rfl
    rw [hbase]
    simp only [Bool.not_true, Bool.and_false, Bool.false_eq_true, if_false,
      jsonDumpsStr_intChars, replaceLS_dumps_intChars]
  · rw [if_neg h, ToJsCore, bigintAdjust_int_small n h, dumpsE_int]
    have hbase : isBasestring (PyVal.int n) = false := rfl
    rw [hbase]
    cases b
    · simp [replaceLS_intChars]
    · simp [replaceLS_intChars, jsonDumpsStr_intChars]

theorem toJsCore_badstr (nu : List Char → List Char) (s : List Char) (b : Bool) :
    ToJsCore nu (PyVal.badstr s) b = replaceLS (jsonDumpsStr (nu s)) := by
  rw [ToJsCore]
  have hy : bigintAdjust (PyVal.badstr s) = PyVal.badstr s := rfl
  rw [hy, dumpsE_badstr]
  have hbase : isBasestring (PyVal.badstr s) = true := rfl
  rw [hbase]
  simp only [Bool.not_true, Bool.and_false, Bool.false_eq_true, if_false, toJsFallback]

theorem toJsCore_list_fail (nu : List Char → List Char) (xs : List PyVal) (b : Bool)
    (h : dumpsE (PyVal.list xs) = Option.none) :
    ToJsCore nu (PyVal.list xs) b =
      if b then jsonDumpsStr (replaceLS (jsonDumpsStrList (toJsElems nu xs)))
      else replaceLS (jsonDumpsStrList (toJsElems nu xs)) := by
  rw [ToJsCore]
  have hy : bigintAdjust (PyVal.list xs) = PyVal.list xs := rfl
  rw [hy, h]
  have hbase : isBasestring (PyVal.list xs) = false := rfl
  rw [hbase]
  simp only [Bool.not_false, Bool.and_true, toJsFallback]

-- ### Head characters of serialized values

theorem jsonDumpsStr_head? (s : List Char) : (jsonDumpsStr s).head? = some '"' := by
  unfold jsonDumpsStr
  rw [List.cons_append]
  rfl

theorem natDigits_ne_nil (n : Nat) : natDigits n ≠ [] := by
  unfold natDigits
  by_cases h : n = 0
  · rw [if_pos h]; simp
  · rw [if_neg h]
    cases n with
    | zero => exact absurd rfl h
    | succ m =>
      unfold natDigitsAux
      rw [if_neg h]
      simp

theorem intChars_ne_nil (n : Int) : intChars n ≠ [] := by
  unfold intChars
  by_cases h : n < 0
  · rw [if_pos h]; simp
  · rw [if_neg h]; exact natDigits_ne_nil _

theorem intChars_head_ne_brace (n : Int) : (intChars n).head? ≠ some '{' := by
  cases hs : intChars n with
  | nil => exact absurd hs (intChars_ne_nil n)
  | cons c t =>
    have hc : c ∈ intChars n := by rw [hs]; exact List.mem_cons_self c t
    intro hcontra
    have hceq : c = '{' := Option.some.inj hcontra
    subst hceq
    rcases intChars_mem n _ hc with h | h
    · exact absurd h (by decide)
    · exact absurd h (by decide)

theorem dumpsE_head_ne_brace (x : PyVal) (r : List Char)
    (h : dumpsE x = Option.some r) : r.head? ≠ some '{' := by
  cases x with
  | none =>
    rw [dumpsE] at h
    have hr := (Option.some.inj h).symm
    subst hr
    decide
  | bool b =>
    rw [dumpsE] at h
    have hr := (Option.some.inj h).symm
    subst hr
    cases b <;> decide
  | int n =>
    rw [dumpsE_int] at h
    have hr := (Option.some.inj h).symm
    subst hr
    exact intChars_head_ne_brace n
  | str s =>
    rw [dumpsE_str] at h
    have hr := (Option.some.inj h).symm
    subst hr
    rw [jsonDumpsStr_head?]
    simp
  | badstr s =>
    rw [dumpsE_badstr] at h
    exact absurd h (by simp)
  | list xs =>
    rw [dumpsE] at h
    cases hd : dumpsElems xs with
    | none => rw [hd] at h; simp at h
    | some es =>
      rw [hd] at h
      have hr := (Option.some.inj h).symm
      subst hr
      rw [List.cons_append]
      simp

theorem toJsFallback_head_ne_brace (nu : List Char → List Char) (x : PyVal) :
    (toJsFallback nu x).head? ≠ some '{' := by
  cases x with
  | str s => rw [toJsFallback, jsonDumpsStr_head?]; simp
  | badstr s => rw [toJsFallback, jsonDumpsStr_head?]; simp
  | list xs =>
    rw [toJsFallback]
    unfold jsonDumpsStrList
    rw [List.cons_append]
    simp
  | none => simp [toJsFallback]
  | bool b => simp [toJsFallback]
  | int n => simp [toJsFallback]

theorem toJsCore_head_ne_brace (nu : List Char → List Char) (x : PyVal) (b : Bool) :
    (ToJsCore nu x b).head? ≠ some '{' := by
  rw [ToJsCore]
  cases hdbl : (b && !(isBasestring (bigintAdjust x)))
  · rw [if_neg (by simp), replaceLS_head?]
    cases hd : dumpsE (bigintAdjust x) with
    | some r => exact dumpsE_head_ne_brace _ r hd
    | none => exact toJsFallback_head_ne_brace nu x
  · rw [if_pos rfl, jsonDumpsStr_head?]
    simp

theorem toJs_head_ne_brace (x : PyVal) (nu : List Char → List Char)
    (fmt : Option (PyVal → PyVal)) (b : Bool) :
    (ToJs x nu fmt b).head? ≠ some '{' := by
  unfold ToJs
  exact toJsCore_head_ne_brace nu _ b

-- ### Claims C6, C7, C8

/-- Claim C6: the value normalizer emits an integer as a text-encoded decimal
string (hence quoted in the JSON output) exactly when its absolute value
exceeds 2^52, and as a bare numeric literal otherwise. -/
theorem c6_large_int_as_text (n : Int) (nu : List Char → List Char) :
    ToJs (PyVal.int n) nu Option.none false =
      if 2 ^ 52 < n.natAbs then '"' :: intChars n ++ ['"'] else intChars n := by
  unfold ToJs
  rw [toJsCore_int]
  by_cases h : 2 ^ 52 < n.natAbs
  · rw [if_pos h, if_pos h]
  · rw [if_neg h, if_neg h, if_neg (by decide)]

/-- Claim C7: for every value, nonunicode formatter, custom formatter, and
as-string flag, the serialized output of the value normalizer contains no
occurrence of the two-character substring "</". -/
theorem c7_no_script_close (x : PyVal) (nu : List Char → List Char)
    (formatter : Option (PyVal → PyVal)) (as_string : Bool) :
    hasLS (ToJs x nu formatter as_string) = false := by
  unfold ToJs
  exact toJsCore_noLS nu _ as_string

/-- Claim C8: when serialization fails with an undecodable-text encoding error
the normalizer does not raise: a text value falls back to the JSON encoding of
the nonunicode formatter applied to it, and a list value falls back to the
JSON encoding of the list of its recursively normalized elements (both then
subject to the "</" replacement applied to every result). -/
theorem c8_unicode_fallback (nu : List Char → List Char) (s : List Char)
    (xs : List PyVal) (h : dumpsE (PyVal.list xs) = Option.none) :
    ToJs (PyVal.badstr s) nu Option.none false = replaceLS (jsonDumpsStr (nu s))
    ∧ ToJs (PyVal.list xs) nu Option.none false =
        replaceLS (jsonDumpsStrList (xs.map (fun el => ToJs el nu Option.none false))) := by
  constructor
  · unfold ToJs
    exact toJsCore_badstr nu s false
  · unfold ToJs
    rw [toJsCore_list_fail nu xs false h, if_neg (by decide), toJsElems_eq_map]

/-- Witness for claim C8 at a concrete undecodable one-element list. -/
theorem c8_unicode_fallback_witness :
    dumpsE (PyVal.list [PyVal.badstr ['b']]) = Option.none
    ∧ (ToJs (PyVal.badstr ['a']) idNu Option.none false
          = replaceLS (jsonDumpsStr (idNu ['a']))
       ∧ ToJs (PyVal.list [PyVal.badstr ['b']]) idNu Option.none false
          = replaceLS (jsonDumpsStrList
              ([PyVal.badstr ['b']].map (fun el => ToJs el idNu Option.none false)))) := by
  have h : dumpsE (PyVal.list [PyVal.badstr ['b']]) = Option.none := by
    simp [dumpsE, dumpsElems]
  exact ⟨h, c8_unicode_fallback idNu ['a'] [PyVal.badstr ['b']] h⟩

-- ### Claim C4: the raw/formatted pair encoding

theorem pairTemplate_head? (raw fmtd : List Char) :
    (pairTemplate raw fmtd).head? = some '{' := rfl

/-- Claim C4: a cell of `FormatData` is encoded as the raw/formatted pair
exactly when its column type is numeric and a custom formatter is registered
for that column; in every other case it is the single normalized
(possibly custom-formatted) value. -/
theorem c4_pair_encoding_iff (dF : List Char → List Char)
    (cF : Option (PyVal → PyVal)) (ct : ColType) (cell : PyVal) :
    (∃ raw fmtd, encodeCell dF cF ct cell = pairTemplate raw fmtd)
      ↔ (ct = ColType.number ∧ cF.isSome = true) := by
  constructor
  · rintro ⟨raw, fmtd, heq⟩
    cases cF with
    | none =>
      exfalso
      have hsingle : encodeCell dF Option.none ct cell =
          ToJs cell dF Option.none false := by
        simp only [encodeCell]
        rw [if_pos (show ct ≠ ColType.number ∨
          (Option.none : Option (PyVal → PyVal)).isSome = false from Or.inr rfl)]
      have hhead : (ToJs cell dF Option.none false).head? = some '{' := by
        rw [← hsingle, heq, pairTemplate_head?]
      exact toJs_head_ne_brace _ dF Option.none false hhead
    | some f =>
      by_cases hct : ct = ColType.number
      · exact ⟨hct, rfl⟩
      · exfalso
        have hsingle : encodeCell dF (Option.some f) ct cell =
            ToJs (f cell) dF Option.none false := by
          simp only [encodeCell]
          rw [if_pos (Or.inl hct)]
        have hhead : (ToJs (f cell) dF Option.none false).head? = some '{' := by
          rw [← hsingle, heq, pairTemplate_head?]
        exact toJs_head_ne_brace _ dF Option.none false hhead
  · rintro ⟨hct, hcf⟩
    cases cF with
    | none => simp at hcf
    | some f =>
      refine ⟨ToJs cell dF Option.none false, ToJs (f cell) dF Option.none true, ?_⟩
      simp only [encodeCell]
      rw [if_neg (by simp [hct])]

-- ### Claim C3: column type inference

theorem detColType_number_iff (ts : List PyType) :
    DetermineColumnType ts = ColType.number ↔
      ts.all (fun t => isNumberOrNoneSub t && !(isBoolSub t)) = true := by
  unfold DetermineColumnType
  by_cases h : ts.all (fun t => isNumberOrNoneSub t && !(isBoolSub t)) = true
  · rw [if_pos h]; simp [h]
  · rw [if_neg h]; simp [h]

theorem cellPred_eq (c : PyVal) :
    (isNumberOrNoneSub (cellType c) && !(isBoolSub (cellType c)))
      = isNullOrNonBoolNum c := by
  cases c <;> rfl

theorem all_map_comp {α β : Type} (l : List α) (f : α → β) (p : β → Bool) :
    (l.map f).all p = l.all (fun a => p (f a)) := by
  induction l with
  | nil => rfl
  | cons a t ih => rw [List.map_cons, List.all_cons, List.all_cons, ih]

/-- Claim C3: for a column every row reaches, column type inference returns
numeric exactly when every cell in the column is null or a non-boolean
numeric value (all-null columns are numeric; text or booleans anywhere make
the column textual). -/
theorem c3_number_iff_null_or_numeric (data : List (List PyVal)) (i : Nat)
    (h : ∀ row ∈ data, i < row.length) :
    (GetColumnType data i = ColType.number
      ↔ ∀ row ∈ data, isNullOrNonBoolNum (row.getD i PyVal.none) = true) := by
  unfold GetColumnType
  rw [detColType_number_iff, all_map_comp, List.all_eq_true]
  constructor <;> intro ha row hrow
  · have h2 := ha row hrow
    rw [← cellPred_eq]
    exact h2
  · rw [cellPred_eq]
    exact ha row hrow

/-- Witness for claim C3: an all-null column infers as numeric. -/
theorem c3_number_iff_null_or_numeric_witness :
    (∀ row ∈ [[PyVal.none], [PyVal.none]], 0 < row.length)
    ∧ GetColumnType [[PyVal.none], [PyVal.none]] 0 = ColType.number := by
  have h : ∀ row ∈ [[PyVal.none], [PyVal.none]], 0 < row.length := by decide
  exact ⟨h, (c3_number_iff_null_or_numeric [[PyVal.none], [PyVal.none]] 0 h).mpr
    (by decide)⟩

-- ### Claims C10, C2, C9

theorem trimData_caller {A : Type} (data : List (List A)) (maxRows : Nat)
    (mc : Option Nat) :
    (TrimData data maxRows mc).1 = trimDataMutated data mc := by
  simp only [TrimData]
  split
  · rfl
  · rfl

theorem trimData_returned {A : Type} (data : List (List A)) (maxRows : Nat)
    (mc : Option Nat) :
    (TrimData data maxRows mc).2.1 = (trimDataMutated data mc).take maxRows := by
  simp only [TrimData]
  split
  · rename_i hle
    exact (List.take_of_length_le hle).symm
  · rfl

theorem trimDataMutated_cons {A : Type} (r : List A) (rest : List (List A))
    (m : Nat) (h : m < r.length) :
    trimDataMutated (r :: rest) (Option.some m)
      = (r :: rest).map (fun row => row.take m) := by
  simp only [trimDataMutated]
  rw [if_pos]
  exact ⟨by simp, by simpa using h⟩

/-- Claim C10: when the first row is longer than maxColumns, the data-trimming
operation replaces each row of the caller's list with its truncated prefix in
place, so the caller-visible input data is modified rather than left
unchanged. -/
theorem c10_trimdata_mutates_input {A : Type} (r : List A) (rest : List (List A))
    (m maxRows : Nat) (h : m < r.length) :
    (TrimData (r :: rest) maxRows (Option.some m)).1
        = (r :: rest).map (fun row => row.take m)
    ∧ (TrimData (r :: rest) maxRows (Option.some m)).1 ≠ r :: rest := by
  have hc : (TrimData (r :: rest) maxRows (Option.some m)).1
      = (r :: rest).map (fun row => row.take m) := by
    rw [trimData_caller, trimDataMutated_cons r rest m h]
  refine ⟨hc, ?_⟩
  rw [hc]
  intro heq
  rw [List.map_cons] at heq
  have h1 : r.take m = r := (List.cons.inj heq).1
  have hlen := congrArg List.length h1
  rw [List.length_take, Nat.min_eq_left (Nat.le_of_lt h)] at hlen
  omega

/-- Witness for claim C10 at a concrete one-row list. -/
theorem c10_trimdata_mutates_input_witness :
    1 < ([0, 1] : List Nat).length
    ∧ ((TrimData [[0, 1]] 5 (Option.some 1)).1 = [[(0 : Nat), 1]].map (fun row => row.take 1)
       ∧ (TrimData [[0, 1]] 5 (Option.some 1)).1 ≠ [[(0 : Nat), 1]]) :=
  ⟨by decide, c10_trimdata_mutates_input [0, 1] [] 1 5 (by decide)⟩

/-- Counterexample to claim C2 as stated: the input table has 2 columns and
maxColumns is 1, so the header is trimmed with a warning, yet the second row
(longer than the first) is returned untrimmed, because the row trim only
checks the first row's length. -/
theorem c2_counterexample :
    TrimColumns ["a", "b"] 1 = (["a"], [Warning.tooManyColumns 2 1])
    ∧ (TrimData [[(0 : Nat)], [1, 2]] 100 (Option.some 1)).2.1.getD 1 [] = [1, 2]
    ∧ ¬ ((TrimData [[(0 : Nat)], [1, 2]] 100 (Option.some 1)).2.1.getD 1 []).length ≤ 1 := by
  refine ⟨?_, ?_, ?_⟩
  · decide
  · decide
  · decide

/-- Claim C2 amended: for inputs whose header label count exceeds maxColumns
and whose rows all have the header's length, the header is truncated to the
first maxColumns labels with a warning, and every returned row is an original
row truncated to its first maxColumns entries (hence of length at most
maxColumns). -/
theorem c2_header_and_rows_trimmed {A : Type} (columns : List String)
    (data : List (List A)) (m maxRows : Nat)
    (hc : m < columns.length)
    (hw : ∀ row ∈ data, row.length = columns.length) :
    (TrimColumns columns m).1 = columns.take m
    ∧ (TrimColumns columns m).2 = [Warning.tooManyColumns columns.length m]
    ∧ ∀ row ∈ (TrimData data maxRows (Option.some m)).2.1,
        (∃ orig ∈ data, row = orig.take m) ∧ row.length ≤ m := by
  have htc : ¬ columns.length ≤ m := by omega
  refine ⟨?_, ?_, ?_⟩
  · unfold TrimColumns
    rw [if_neg htc]
  · unfold TrimColumns
    rw [if_neg htc]
  · intro row hrow
    rw [trimData_returned] at hrow
    have hrow2 : row ∈ trimDataMutated data (Option.some m) :=
      List.take_subset _ _ hrow
    cases data with
    | nil =>
      exfalso
      have hempty : trimDataMutated ([] : List (List A)) (Option.some m) = [] := by
        simp only [trimDataMutated]
        rw [if_neg]
        intro hcontra
        exact hcontra.1 rfl
      rw [hempty] at hrow2
      exact absurd hrow2 (List.not_mem_nil row)
    | cons r rest =>
      have hr : r.length = columns.length := hw r (List.mem_cons_self r rest)
      have hmut := trimDataMutated_cons r rest m (by omega)
      rw [hmut] at hrow2
      obtain ⟨orig, horig, hroweq⟩ := List.mem_map.1 hrow2
      refine ⟨⟨orig, horig, hroweq.symm⟩, ?_⟩
      rw [← hroweq, List.length_take]
      exact Nat.min_le_left m orig.length

/-- Witness for the amended claim C2 at a concrete well-formed table. -/
theorem c2_header_and_rows_trimmed_witness :
    1 < (["a", "b", "c"] : List String).length
    ∧ (∀ row ∈ [[(5 : Nat), 6, 7], [8, 9, 10]],
        row.length = (["a", "b", "c"] : List String).length)
    ∧ ((TrimColumns ["a", "b", "c"] 1).1 = (["a", "b", "c"] : List String).take 1
       ∧ (TrimColumns ["a", "b", "c"] 1).2 = [Warning.tooManyColumns 3 1]
       ∧ ∀ row ∈ (TrimData [[(5 : Nat), 6, 7], [8, 9, 10]] 20 (Option.some 1)).2.1,
           (∃ orig ∈ [[(5 : Nat), 6, 7], [8, 9, 10]], row = orig.take 1)
           ∧ row.length ≤ 1) :=
  ⟨by decide, by decide,
   c2_header_and_rows_trimmed ["a", "b", "c"] [[5, 6, 7], [8, 9, 10]] 1 20
     (by decide) (by decide)⟩

/-- Claim C9: a widget whose trimmed row set is empty renders the explicit
placeholder text with no error, and the serialization pipeline is not invoked
(the serializer, which fails on an empty list, would have returned no
payload). -/
theorem c9_empty_placeholder (t : GVizTable) (h : t.data = []) :
    getHtml t = Option.some ("The table is empty".data)
    ∧ FormatDataE t.data defaultNonunicodeFormatter t.customFormatters = Option.none
    ∧ genJs t = Option.none := by
  have hlen : t.data.length = 0 := by rw [h]; rfl
  refine ⟨?_, ?_, ?_⟩
  · unfold getHtml
    rw [if_pos hlen]
  · unfold FormatDataE
    rw [h]
    rfl
  · unfold genJs FormatDataE
    rw [h]
    rfl

/-- Witness for claim C9 at a concrete empty widget. -/
theorem c9_empty_placeholder_witness :
    emptyTable.data = []
    ∧ (getHtml emptyTable = Option.some ("The table is empty".data)
       ∧ FormatDataE emptyTable.data defaultNonunicodeFormatter
           emptyTable.customFormatters = Option.none
       ∧ genJs emptyTable = Option.none) :=
  ⟨rfl, c9_empty_placeholder emptyTable rfl⟩

-- ### Claim C1: the cumulative size cap

theorem toJs_int_one : ToJs (PyVal.int 1) idNu Option.none false = ['1'] := by
  unfold ToJs
  rw [toJsCore_int, if_neg (by norm_num), if_neg (by decide)]
  decide

theorem toJs_int_two : ToJs (PyVal.int 2) idNu Option.none false = ['2'] := by
  unfold ToJs
  rw [toJsCore_int, if_neg (by norm_num), if_neg (by decide)]
  decide

theorem serializedRows_concrete :
    serializedRows [[PyVal.int 1], [PyVal.int 2]] idNu cfEmpty = [['1'], ['2']] := by
  simp only [serializedRows, List.map_cons, List.map_nil, cfEmpty]
  rw [show List.enum [PyVal.int 1] = [(0, PyVal.int 1)] from rfl,
      show List.enum [PyVal.int 2] = [(0, PyVal.int 2)] from rfl,
      List.map_cons, List.map_nil, List.map_cons, List.map_nil]
  rw [show (0, PyVal.int 1).2 = PyVal.int 1 from rfl,
      show (0, PyVal.int 2).2 = PyVal.int 2 from rfl]
  rw [toJs_int_one, toJs_int_two]
  rfl

/-- Claim C1 (code bug): the rendering path (`FormatData`, reached from
`GVizTable._gen_js`) hands every serialized row to the display widget and has
no size budget at all — `max_data_size` is computed in the constructor but
used nowhere — so no row is ever discarded and no warning emitted, while
`ToJsMatrix`, the function that implements the documented cumulative cap, is
unreachable from the widget and would discard both rows of this two-row table
at budget 1 with a warning. -/
theorem c1_max_data_size_not_enforced :
    (∀ (data : List (List PyVal)) (dF : List Char → List Char)
        (cF : Nat → Option (PyVal → PyVal)),
      (formattedRows data dF cF).length = data.length)
    ∧ serializedRows [[PyVal.int 1], [PyVal.int 2]] idNu cfEmpty = [['1'], ['2']]
    ∧ keptCount [['1'], ['2']] 1 = 0
    ∧ ToJsMatrix [[PyVal.int 1], [PyVal.int 2]] idNu cfEmpty 1
        = ("[[]]".data, [Warning.dataExceeds 1 2]) := by
  refine ⟨?_, serializedRows_concrete, by decide, ?_⟩
  · intro data dF cF
    unfold formattedRows
    rw [List.length_map]
  · simp only [ToJsMatrix, serializedRows_concrete]
    decide

-- ### Claim C5: formatter precedence and validation warnings

theorem find?_append_of_some {A : Type} (l l2 : List A) (q : A → Bool) (e : A)
    (h : l.find? q = some e) : (l ++ l2).find? q = some e := by
  induction l with
  | nil => simp [List.find?] at h
  | cons a t ih =>
    rw [List.cons_append]
    cases hq : q a
    · have hq2 : ¬ q a = true := by rw [hq]; exact Bool.false_ne_true
      rw [List.find?_cons_of_neg _ hq2] at h
      rw [List.find?_cons_of_neg _ hq2]
      exact ih h
    · rw [List.find?_cons_of_pos _ hq] at h
      rw [List.find?_cons_of_pos _ hq]
      exact h

theorem pcfLoop_cons_none {F : Type} (fmts : List (FmtKey × F)) (j : Nat)
    (name : String) (rest : List (Nat × String)) (out : List (Nat × F))
    (ws : List Warning) (hk : lookupKey fmts (Sum.inr name) = Option.none) :
    pcfLoop fmts ((j, name) :: rest) out ws = pcfLoop fmts rest out ws := by
  simp only [pcfLoop, hk]

theorem pcfLoop_cons_some_hit {F : Type} (fmts : List (FmtKey × F)) (j : Nat)
    (name : String) (rest : List (Nat × String)) (out : List (Nat × F))
    (ws : List Warning) (f : F)
    (hk : lookupKey fmts (Sum.inr name) = Option.some f)
    (hf : (out.find? (fun p => decide (p.1 = j))).isSome = true) :
    pcfLoop fmts ((j, name) :: rest) out ws
      = pcfLoop fmts rest out (ws ++ [Warning.fmtCollision j name]) := by
  simp only [pcfLoop, hk]
  rw [if_pos hf]

theorem pcfLoop_cons_some_miss {F : Type} (fmts : List (FmtKey × F)) (j : Nat)
    (name : String) (rest : List (Nat × String)) (out : List (Nat × F))
    (ws : List Warning) (f : F)
    (hk : lookupKey fmts (Sum.inr name) = Option.some f)
    (hf : (out.find? (fun p => decide (p.1 = j))).isSome = false) :
    pcfLoop fmts ((j, name) :: rest) out ws
      = pcfLoop fmts rest (out ++ [(j, f)]) ws := by
  simp only [pcfLoop, hk]
  rw [if_neg (by rw [hf]; exact Bool.false_ne_true)]

theorem pcfLoop_find_preserved {F : Type} (fmts : List (FmtKey × F)) (i : Nat)
    (e : Nat × F) :
    ∀ (pairs : List (Nat × String)) (out : List (Nat × F)) (ws : List Warning),
      out.find? (fun p => decide (p.1 = i)) = some e →
      ((pcfLoop fmts pairs out ws).1).find? (fun p => decide (p.1 = i)) = some e := by
  intro pairs
  induction pairs with
  | nil =>
    intro out ws h
    simpa [pcfLoop] using h
  | cons pr rest ih =>
    intro out ws h
    obtain ⟨j, name⟩ := pr
    cases hk : lookupKey fmts (Sum.inr name) with
    | none =>
      rw [pcfLoop_cons_none fmts j name rest out ws hk]
      exact ih out ws h
    | some f =>
      cases hf : (out.find? (fun p => decide (p.1 = j))).isSome
      · rw [pcfLoop_cons_some_miss fmts j name rest out ws f hk hf]
        exact ih _ ws (find?_append_of_some _ _ _ _ h)
      · rw [pcfLoop_cons_some_hit fmts j name rest out ws f hk hf]
        exact ih out _ h

theorem pcfLoop_warning_preserved {F : Type} (fmts : List (FmtKey × F)) (w : Warning) :
    ∀ (pairs : List (Nat × String)) (out : List (Nat × F)) (ws : List Warning),
      w ∈ ws → w ∈ (pcfLoop fmts pairs out ws).2 := by
  intro pairs
  induction pairs with
  | nil =>
    intro out ws h
    simpa [pcfLoop] using h
  | cons pr rest ih =>
    intro out ws h
    obtain ⟨j, name⟩ := pr
    cases hk : lookupKey fmts (Sum.inr name) with
    | none =>
      rw [pcfLoop_cons_none fmts j name rest out ws hk]
      exact ih out ws h
    | some f =>
      cases hf : (out.find? (fun p => decide (p.1 = j))).isSome
      · rw [pcfLoop_cons_some_miss fmts j name rest out ws f hk hf]
        exact ih _ ws h
      · rw [pcfLoop_cons_some_hit fmts j name rest out ws f hk hf]
        exact ih out _ (List.mem_append_left _ h)

theorem pcfLoop_collision {F : Type} (fmts : List (FmtKey × F)) (i : Nat)
    (lbl : String) (fl : F) (hk : lookupKey fmts (Sum.inr lbl) = Option.some fl) :
    ∀ (pairs : List (Nat × String)) (out : List (Nat × F)) (ws : List Warning),
      (i, lbl) ∈ pairs →
      (out.find? (fun p => decide (p.1 = i))).isSome = true →
      Warning.fmtCollision i lbl ∈ (pcfLoop fmts pairs out ws).2 := by
  intro pairs
  induction pairs with
  | nil =>
    intro out ws hmem hfind
    simp at hmem
  | cons pr rest ih =>
    intro out ws hmem hfind
    obtain ⟨j, name⟩ := pr
    rcases List.mem_cons.1 hmem with heq | hmem2
    · have hji : i = j := congrArg Prod.fst heq
      have hname : lbl = name := congrArg Prod.snd heq
      subst hji
      subst hname
      rw [pcfLoop_cons_some_hit fmts i lbl rest out ws fl hk hfind]
      exact pcfLoop_warning_preserved fmts _ rest _ _
        (List.mem_append_right _ (List.mem_singleton.2 rfl))
    · cases hk2 : lookupKey fmts (Sum.inr name) with
      | none =>
        rw [pcfLoop_cons_none fmts j name rest out ws hk2]
        exact ih out ws hmem2 hfind
      | some g =>
        cases hf : (out.find? (fun p => decide (p.1 = j))).isSome
        · rw [pcfLoop_cons_some_miss fmts j name rest out ws g hk2 hf]
          apply ih _ ws hmem2
          obtain ⟨e, he⟩ := Option.isSome_iff_exists.1 hfind
          rw [find?_append_of_some _ _ _ _ he]
          rfl
        · rw [pcfLoop_cons_some_hit fmts j name rest out ws g hk2 hf]
          exact ih out _ hmem2 hfind

theorem pcfIntEntries_find {F : Type} (fmts : List (FmtKey × F)) (i : Nat) (fp : F)
    (hnd : (fmts.map Prod.fst).Nodup) (hp : (Sum.inl i, fp) ∈ fmts) :
    (pcfIntEntries fmts).find? (fun p => decide (p.1 = i)) = Option.some (i, fp) := by
  induction fmts with
  | nil => simp at hp
  | cons a t ih =>
    obtain ⟨k, g⟩ := a
    rw [List.map_cons, List.nodup_cons] at hnd
    rcases List.mem_cons.1 hp with heq | hmem
    · cases heq.symm
      rw [show pcfIntEntries ((Sum.inl i, fp) :: t) = (i, fp) :: pcfIntEntries t from rfl]
      rw [List.find?_cons_of_pos _ (by simp)]
    · cases k with
      | inl j =>
        have hji : ¬ j = i := by
          intro hji
          apply hnd.1
          have hx : (Sum.inl i : FmtKey) ∈ List.map Prod.fst t :=
            List.mem_map_of_mem Prod.fst hmem
          rw [hji]
          exact hx
        rw [show pcfIntEntries ((Sum.inl j, g) :: t) = (j, g) :: pcfIntEntries t from rfl]
        rw [List.find?_cons_of_neg _ (by simp [hji])]
        exact ih hnd.2 hmem
      | inr l =>
        rw [show pcfIntEntries ((Sum.inr l, g) :: t) = pcfIntEntries t from rfl]
        exact ih hnd.2 hmem

theorem lookupKey_of_nodup {F : Type} (fmts : List (FmtKey × F)) (k : FmtKey) (fl : F)
    (hnd : (fmts.map Prod.fst).Nodup) (h : (k, fl) ∈ fmts) :
    lookupKey fmts k = Option.some fl := by
  induction fmts with
  | nil => simp at h
  | cons a t ih =>
    obtain ⟨k2, g⟩ := a
    rw [List.map_cons, List.nodup_cons] at hnd
    rcases List.mem_cons.1 h with heq | hmem
    · cases heq.symm
      unfold lookupKey
      rw [List.find?_cons_of_pos _ (by simp)]
      rfl
    · have hne : ¬ k2 = k := by
        intro he
        apply hnd.1
        have hx : k ∈ List.map Prod.fst t := List.mem_map_of_mem Prod.fst hmem
        rw [he]
        exact hx
      have hrec := ih hnd.2 hmem
      unfold lookupKey at hrec ⊢
      rw [List.find?_cons_of_neg _ (by simp [hne])]
      exact hrec

theorem mem_enumFrom_of_getElem? {A : Type} (cols : List A) :
    ∀ (n i : Nat) (lbl : A), cols[i]? = some lbl → (n + i, lbl) ∈ cols.enumFrom n := by
  induction cols with
  | nil => intro n i lbl h; simp at h
  | cons c t ih =>
    intro n i lbl h
    cases i with
    | zero =>
      have hc : c = lbl := by simpa using h
      subst hc
      show (n + 0, c) ∈ (n, c) :: List.enumFrom (n + 1) t
      simp
    | succ i2 =>
      rw [List.getElem?_cons_succ] at h
      have hmem := ih (n + 1) i2 lbl h
      show (n + (i2 + 1), lbl) ∈ (n, c) :: List.enumFrom (n + 1) t
      apply List.mem_cons_of_mem
      have harith : n + (i2 + 1) = (n + 1) + i2 := by omega
      rw [harith]
      exact hmem

theorem mem_enum_of_getElem? {A : Type} (cols : List A) (i : Nat) (lbl : A)
    (h : cols[i]? = some lbl) : (i, lbl) ∈ cols.enum := by
  have hm := mem_enumFrom_of_getElem? cols 0 i lbl h
  simpa [List.enum] using hm

/-- Claim C5: in a custom-formatter spec where a positional key and a label key
resolve to the same column index, the formatter resolved for that column is
the positional one (the label-keyed entry is discarded) and a collision
warning is emitted; every out-of-range positional key and every label key
matching no column also produce a warning, and the resolution is total (never
an error). -/
theorem c5_positional_precedence {F : Type} (fmts : List (FmtKey × F))
    (columns : List String) (fp fl : F) (i : Nat) (lbl : String)
    (hnd : (fmts.map Prod.fst).Nodup)
    (hp : (Sum.inl i, fp) ∈ fmts)
    (hl : (Sum.inr lbl, fl) ∈ fmts)
    (hcol : columns[i]? = some lbl) :
    lookupFmt (ProcessCustomFormatters fmts columns).1 i = Option.some fp
    ∧ Warning.fmtCollision i lbl ∈ (ProcessCustomFormatters fmts columns).2
    ∧ (∀ (k : Nat) (g : F), (Sum.inl k, g) ∈ fmts → columns.length ≤ k →
        Warning.fmtIdxOutOfRange k columns.length
          ∈ (ProcessCustomFormatters fmts columns).2)
    ∧ (∀ (l : String) (g : F), (Sum.inr l, g) ∈ fmts → l ∉ columns →
        Warning.fmtNameMissing l ∈ (ProcessCustomFormatters fmts columns).2) := by
  have hne : fmts.isEmpty = false := by
    cases fmts
    · simp at hp
    · rfl
  have hinit := pcfIntEntries_find fmts i fp hnd hp
  have hkey := lookupKey_of_nodup fmts (Sum.inr lbl) fl hnd hl
  have henum := mem_enum_of_getElem? columns i lbl hcol
  unfold ProcessCustomFormatters
  rw [if_neg (by rw [hne]; exact Bool.false_ne_true)]
  refine ⟨?_, ?_, ?_, ?_⟩
  · unfold lookupFmt
    rw [pcfLoop_find_preserved fmts i (i, fp) columns.enum _ [] hinit]
    rfl
  · apply List.mem_append_right
    exact pcfLoop_collision fmts i lbl fl hkey columns.enum _ [] henum
      (by rw [hinit]; rfl)
  · intro k g hkg hoor
    apply List.mem_append_left
    apply List.mem_filterMap.2
    exact ⟨(Sum.inl k, g), hkg, by simp [hoor]⟩
  · intro l g hlg hmiss
    apply List.mem_append_left
    apply List.mem_filterMap.2
    exact ⟨(Sum.inr l, g), hlg, by simp [hmiss]⟩

/-- Witness for claim C5 at a concrete two-entry spec over one column. -/
theorem c5_positional_precedence_witness :
    ((fmtsW.map Prod.fst).Nodup
     ∧ (Sum.inl 0, 1) ∈ fmtsW
     ∧ (Sum.inr "a", 2) ∈ fmtsW
     ∧ colsW[0]? = some "a")
    ∧ (lookupFmt (ProcessCustomFormatters fmtsW colsW).1 0 = Option.some 1
       ∧ Warning.fmtCollision 0 "a" ∈ (ProcessCustomFormatters fmtsW colsW).2
       ∧ (∀ (k : Nat) (g : Nat), (Sum.inl k, g) ∈ fmtsW → colsW.length ≤ k →
           Warning.fmtIdxOutOfRange k colsW.length
             ∈ (ProcessCustomFormatters fmtsW colsW).2)
       ∧ (∀ (l : String) (g : Nat), (Sum.inr l, g) ∈ fmtsW → l ∉ colsW →
           Warning.fmtNameMissing l ∈ (ProcessCustomFormatters fmtsW colsW).2)) :=
  ⟨⟨by decide, by simp [fmtsW], by simp [fmtsW], rfl⟩,
   c5_positional_precedence fmtsW colsW 1 2 0 "a" (by decide) (by simp [fmtsW])
     (by simp [fmtsW]) rfl⟩
